import Mathlib

/-!
Verification development for the flight-telemetry video pipeline
(`flight_data_loader.py` and `flight_video_generator.py`).

Timestamps are modelled as integers (milliseconds); stream rows as
`(timestamp, value)` pairs.  `pd.merge_asof(..., direction='nearest',
tolerance=tol)` is modelled by `mergeAsofNearest`: a backward candidate
(last row with timestamp ≤ r), a forward candidate (first row with
timestamp ≥ r), the closer of the two (ties to the backward side), gated
by the tolerance.
-/

/-- Rows of a stream table are sorted ascending by timestamp
(`df.sort_values('timestamp')` in `load_and_prepare_csv`). -/
abbrev SortedTS (rows : List (Int × Int)) : Prop :=
  rows.Pairwise (fun a b => a.1 ≤ b.1)

/-- Backward asof candidate: the last row whose timestamp is ≤ r. -/
def lastLE : List (Int × Int) → Int → Option (Int × Int)
  | [], _ => none
  | p :: rest, r =>
    match lastLE rest r with
    | some q => some q
    | none => if p.1 ≤ r then some p else none

/-- Forward asof candidate: the first row whose timestamp is ≥ r. -/
def firstGE : List (Int × Int) → Int → Option (Int × Int)
  | [], _ => none
  | p :: rest, r => if r ≤ p.1 then some p else firstGE rest r

/-- The nearest-timestamp candidate row, combining the backward and
forward candidates (ties go to the backward side). -/
def nearestCand (rows : List (Int × Int)) (r : Int) : Option (Int × Int) :=
  match lastLE rows r, firstGE rows r with
  | none, none => none
  | none, some f => some f
  | some b, none => some b
  | some b, some f => if r - b.1 ≤ f.1 - r then some b else some f

/-- `merge_asof(..., direction='nearest', tolerance=tol)` applied to one
reference instant `r`: the value of the nearest row, provided its
timestamp is within `tol` of `r`, else null (`none`). -/
def mergeAsofNearest (rows : List (Int × Int)) (r tol : Int) : Option Int :=
  match nearestCand rows r with
  | some p => if |p.1 - r| ≤ tol then some p.2 else none
  | none => none

/-- The merge tolerance used by `load_and_merge_data`:
`pd.Timedelta('50ms')`. -/
def mergeTolerance : Int := 50

lemma lastLE_eq_none {rows : List (Int × Int)} {r : Int}
    (h : lastLE rows r = none) : ∀ q ∈ rows, r < q.1 := by
  induction rows with
  | nil => simp
  | cons p rest ih =>
    intro q hq
    cases hrest : lastLE rest r with
    | some q' => simp [lastLE, hrest] at h
    | none =>
      by_cases hp : p.1 ≤ r
      · simp [lastLE, hrest, hp] at h
      · rcases List.mem_cons.mp hq with rfl | hq'
        · omega
        · exact ih hrest q hq'

lemma firstGE_eq_none {rows : List (Int × Int)} {r : Int}
    (h : firstGE rows r = none) : ∀ q ∈ rows, q.1 < r := by
  induction rows with
  | nil => simp
  | cons p rest ih =>
    intro q hq
    by_cases hp : r ≤ p.1
    · simp [firstGE, hp] at h
    · rcases List.mem_cons.mp hq with rfl | hq'
      · omega
      · exact ih (by simpa [firstGE, hp] using h) q hq'

lemma lastLE_spec {rows : List (Int × Int)} {r : Int}
    (hs : SortedTS rows) {b : Int × Int} (h : lastLE rows r = some b) :
    b ∈ rows ∧ b.1 ≤ r ∧ ∀ q ∈ rows, q.1 ≤ r → q.1 ≤ b.1 := by
  induction rows with
  | nil => simp [lastLE] at h
  | cons p rest ih =>
    have hp : ∀ q ∈ rest, p.1 ≤ q.1 := (List.pairwise_cons.mp hs).1
    have hs' : SortedTS rest := (List.pairwise_cons.mp hs).2
    cases hrest : lastLE rest r with
    | some q =>
      have hq : q = b := by simpa [lastLE, hrest] using h
      subst hq
      obtain ⟨hm, hle, hmax⟩ := ih hs' hrest
      refine ⟨List.mem_cons_of_mem _ hm, hle, ?_⟩
      intro q' hq' hq'le
      rcases List.mem_cons.mp hq' with rfl | h'
      · exact hp _ hm
      · exact hmax _ h' hq'le
    | none =>
      by_cases hple : p.1 ≤ r
      · have hb : p = b := by simpa [lastLE, hrest, hple] using h
        subst hb
        refine ⟨List.mem_cons_self _ _, hple, ?_⟩
        intro q' hq' hq'le
        rcases List.mem_cons.mp hq' with rfl | h'
        · exact le_refl _
        · exact absurd hq'le (not_le.mpr (lastLE_eq_none hrest _ h'))
      · simp [lastLE, hrest, hple] at h

lemma firstGE_spec {rows : List (Int × Int)} {r : Int}
    (hs : SortedTS rows) {f : Int × Int} (h : firstGE rows r = some f) :
    f ∈ rows ∧ r ≤ f.1 ∧ ∀ q ∈ rows, r ≤ q.1 → f.1 ≤ q.1 := by
  induction rows with
  | nil => simp [firstGE] at h
  | cons p rest ih =>
    have hp : ∀ q ∈ rest, p.1 ≤ q.1 := (List.pairwise_cons.mp hs).1
    have hs' : SortedTS rest := (List.pairwise_cons.mp hs).2
    by_cases hple : r ≤ p.1
    · have hb : p = f := by simpa [firstGE, hple] using h
      subst hb
      refine ⟨List.mem_cons_self _ _, hple, ?_⟩
      intro q' hq' _
      rcases List.mem_cons.mp hq' with rfl | h'
      · exact le_refl _
      · exact hp _ h'
    · have h' : firstGE rest r = some f := by simpa [firstGE, hple] using h
      obtain ⟨hm, hle, hmin⟩ := ih hs' h'
      refine ⟨List.mem_cons_of_mem _ hm, hle, ?_⟩
      intro q' hq' hq'ge
      rcases List.mem_cons.mp hq' with rfl | h''
      · omega
      · exact hmin _ h'' hq'ge

lemma nearestCand_eq_none {rows : List (Int × Int)} {r : Int}
    (h : nearestCand rows r = none) : rows = [] := by
  cases hb : lastLE rows r with
  | none =>
    cases hf : firstGE rows r with
    | some f => simp [nearestCand, hb, hf] at h
    | none =>
      rcases rows with _ | ⟨p, rest⟩
      · rfl
      · have h1 := lastLE_eq_none hb p (List.mem_cons_self _ _)
        have h2 := firstGE_eq_none hf p (List.mem_cons_self _ _)
        omega
  | some b =>
    cases hf : firstGE rows r with
    | none => simp [nearestCand, hb, hf] at h
    | some f =>
      by_cases hc : r - b.1 ≤ f.1 - r <;> simp [nearestCand, hb, hf, hc] at h

lemma nearestCand_spec {rows : List (Int × Int)} {r : Int}
    (hs : SortedTS rows) {p : Int × Int} (h : nearestCand rows r = some p) :
    p ∈ rows ∧ ∀ q ∈ rows, |p.1 - r| ≤ |q.1 - r| := by
  cases hb : lastLE rows r with
  | none =>
    cases hf : firstGE rows r with
    | none => simp [nearestCand, hb, hf] at h
    | some f =>
      have hfp : f = p := by simpa [nearestCand, hb, hf] using h
      subst hfp
      obtain ⟨hm, hge, hmin⟩ := firstGE_spec hs hf
      refine ⟨hm, ?_⟩
      intro q hq
      have hq' : r < q.1 := lastLE_eq_none hb q hq
      have := hmin q hq (by omega)
      have e1 : |f.1 - r| = f.1 - r := abs_of_nonneg (by omega)
      have e2 : |q.1 - r| = q.1 - r := abs_of_nonneg (by omega)
      omega
  | some b =>
    cases hf : firstGE rows r with
    | none =>
      have hbp : b = p := by simpa [nearestCand, hb, hf] using h
      subst hbp
      obtain ⟨hm, hle, hmax⟩ := lastLE_spec hs hb
      refine ⟨hm, ?_⟩
      intro q hq
      have hq' : q.1 < r := firstGE_eq_none hf q hq
      have := hmax q hq (by omega)
      have e1 : |b.1 - r| = r - b.1 := by rw [abs_sub_comm]; exact abs_of_nonneg (by omega)
      have e2 : |q.1 - r| = r - q.1 := by rw [abs_sub_comm]; exact abs_of_nonneg (by omega)
      omega
    | some f =>
      obtain ⟨hbm, hble, hbmax⟩ := lastLE_spec hs hb
      obtain ⟨hfm, hfge, hfmin⟩ := firstGE_spec hs hf
      have hclose : ∀ q ∈ rows, min (r - b.1) (f.1 - r) ≤ |q.1 - r| := by
        intro q hq
        by_cases hqr : q.1 ≤ r
        · have := hbmax q hq hqr
          have e2 : |q.1 - r| = r - q.1 := by rw [abs_sub_comm]; exact abs_of_nonneg (by omega)
          omega
        · have := hfmin q hq (by omega)
          have e2 : |q.1 - r| = q.1 - r := abs_of_nonneg (by omega)
          omega
      by_cases hchoice : r - b.1 ≤ f.1 - r
      · have hbp : b = p := by simpa [nearestCand, hb, hf, hchoice] using h
        subst hbp
        refine ⟨hbm, ?_⟩
        intro q hq
        have e1 : |b.1 - r| = r - b.1 := by rw [abs_sub_comm]; exact abs_of_nonneg (by omega)
        have := hclose q hq
        omega
      · have hfp : f = p := by simpa [nearestCand, hb, hf, hchoice] using h
        subst hfp
        refine ⟨hfm, ?_⟩
        intro q hq
        have e1 : |f.1 - r| = f.1 - r := abs_of_nonneg (by omega)
        have := hclose q hq
        omega

/-- C1: For every stream `S` (time-sorted rows) and reference instant `r`,
the nearest-timestamp merge (`pd.merge_asof(..., direction='nearest',
tolerance=tol)` in `load_and_merge_data`) attaches the value of an
`S`-row whose timestamp is nearest to `r` exactly when that nearest
distance is at most the tolerance; when every row of `S` is further than
the tolerance from `r`, the attached field is null (`none`). -/
theorem mergeAsofNearest_spec (rows : List (Int × Int)) (r tol : Int)
    (hs : SortedTS rows) :
    (∀ v, mergeAsofNearest rows r tol = some v →
      ∃ t, (t, v) ∈ rows ∧ |t - r| ≤ tol ∧ ∀ q ∈ rows, |t - r| ≤ |q.1 - r|) ∧
    (mergeAsofNearest rows r tol = none → ∀ q ∈ rows, tol < |q.1 - r|) := by
  constructor
  · intro v hv
    cases hc : nearestCand rows r with
    | none => simp [mergeAsofNearest, hc] at hv
    | some p =>
      by_cases htol : |p.1 - r| ≤ tol
      · have hpv : p.2 = v := by simpa [mergeAsofNearest, hc, htol] using hv
        obtain ⟨hm, hmin⟩ := nearestCand_spec hs hc
        have hpe : (p.1, v) = p := by rw [← hpv]
        exact ⟨p.1, by rw [hpe]; exact hm, htol, hmin⟩
      · simp [mergeAsofNearest, hc, htol] at hv
  · intro hv q hq
    cases hc : nearestCand rows r with
    | none => simp [nearestCand_eq_none hc] at hq
    | some p =>
      by_cases htol : |p.1 - r| ≤ tol
      · simp [mergeAsofNearest, hc, htol] at hv
      · obtain ⟨_, hmin⟩ := nearestCand_spec hs hc
        have := hmin q hq
        omega

/-- Witness for C1 at a concrete sorted stream: the value 10 at timestamp
0 is attached to reference instant 30 with tolerance `mergeTolerance`. -/
theorem mergeAsofNearest_spec_witness :
    ∃ t, (t, (10 : Int)) ∈ [((0 : Int), (10 : Int)), (100, 20)] ∧
      |t - 30| ≤ mergeTolerance ∧
      ∀ q ∈ [((0 : Int), (10 : Int)), (100, 20)], |t - 30| ≤ |q.1 - 30| :=
  (mergeAsofNearest_spec [((0 : Int), (10 : Int)), (100, 20)] 30 mergeTolerance
    (by decide)).1 10 (by decide)

/-!
Alignment model for `load_and_merge_data`: the merge starts from the ATT
(reference) table and repeatedly applies `pd.merge_asof` for each further
stream, attaching one optional value per reference row.  An aligned row
is the reference timestamp together with the list of per-stream
attachments `(stream id, optional value)` in merge order.
-/

/-- One loaded non-reference stream: an identifier (its message type) and
its time-sorted rows. -/
structure TelemetryStream where
  sid : Nat
  rows : List (Int × Int)
deriving DecidableEq

/-- One `pd.merge_asof(df_merged, stream, on='timestamp',
direction='nearest', tolerance=tol)` step: every accumulated row keeps
its timestamp and gains the stream's nearest-in-tolerance value. -/
def attachStream (tol : Int) (acc : List (Int × List (Nat × Option Int)))
    (s : TelemetryStream) : List (Int × List (Nat × Option Int)) :=
  acc.map (fun row => (row.1, row.2 ++ [(s.sid, mergeAsofNearest s.rows row.1 tol)]))

/-- The full merge loop of `load_and_merge_data`: start from the
reference (ATT) timestamps and fold the remaining streams in order. -/
def mergeAll (ref : List Int) (streams : List TelemetryStream) (tol : Int) :
    List (Int × List (Nat × Option Int)) :=
  streams.foldl (attachStream tol) (ref.map (fun t => (t, [])))

/-- An aligned row is essential-complete when every stream id in the
essential set `E` has a non-null attached value
(`df_merged.dropna(subset=essential_dropna_subset)`). -/
def essentialComplete (E : List Nat) (row : Int × List (Nat × Option Int)) : Bool :=
  E.all (fun e =>
    match row.2.lookup e with
    | some (some _) => true
    | _ => false)

/-- The essential-completeness filter: keep only complete rows. -/
def essentialFilter (E : List Nat) (rows : List (Int × List (Nat × Option Int))) :
    List (Int × List (Nat × Option Int)) :=
  rows.filter (essentialComplete E)

lemma foldl_attachStream_shape (tol : Int) (streams : List TelemetryStream)
    (acc : List (Int × List (Nat × Option Int))) :
    streams.foldl (attachStream tol) acc
      = acc.map (fun row =>
          (row.1, row.2 ++ streams.map (fun s => (s.sid, mergeAsofNearest s.rows row.1 tol)))) := by
  induction streams generalizing acc with
  | nil => simp
  | cons s ss ih =>
    rw [List.foldl_cons, ih]
    unfold attachStream
    rw [List.map_map]
    apply List.map_congr_left
    intro row _
    simp

lemma mergeAll_shape (ref : List Int) (streams : List TelemetryStream) (tol : Int) :
    mergeAll ref streams tol
      = ref.map (fun t => (t, streams.map (fun s => (s.sid, mergeAsofNearest s.rows t tol)))) := by
  unfold mergeAll
  rw [foldl_attachStream_shape, List.map_map]
  simp

/-- C4: the aligned table has exactly the reference (ATT) stream's
timestamps, in the same order (one merged row per retained reference
row), and the essential-completeness filter only removes rows — the
filtered table is a sublist of the aligned table (no additions, no
reordering). -/
theorem mergeAll_reference_rows_spec (ref : List Int) (streams : List TelemetryStream)
    (tol : Int) (E : List Nat) :
    (mergeAll ref streams tol).map Prod.fst = ref ∧
    (essentialFilter E (mergeAll ref streams tol)).Sublist (mergeAll ref streams tol) := by
  constructor
  · rw [mergeAll_shape, List.map_map]
    exact List.map_id ref
  · exact List.filter_sublist _

/-- C9: permuting the order in which non-reference streams are merged
changes neither the reference timestamps nor, for any reference instant,
the set of per-stream attached values — only the order (namespacing) of
the attachments within a row. -/
theorem mergeAll_perm_spec (ref : List Int) (s1 s2 : List TelemetryStream) (tol : Int)
    (hperm : s1.Perm s2) :
    (mergeAll ref s1 tol).map Prod.fst = (mergeAll ref s2 tol).map Prod.fst ∧
    ∀ i, i < ref.length →
      ((mergeAll ref s1 tol).getD i (0, [])).2.Perm
        ((mergeAll ref s2 tol).getD i (0, [])).2 := by
  constructor
  · rw [mergeAll_shape, mergeAll_shape, List.map_map, List.map_map]
    simp
  · intro i hi
    rw [mergeAll_shape, mergeAll_shape]
    rw [List.getD_eq_getElem?_getD, List.getD_eq_getElem?_getD,
      List.getElem?_map, List.getElem?_map]
    cases hr : ref[i]? with
    | none =>
      rw [List.getElem?_eq_none_iff] at hr
      omega
    | some t =>
      simpa using hperm.map (fun s => (s.sid, mergeAsofNearest s.rows t tol))

/-- Witness for C9 at two concrete streams merged in both orders onto a
one-instant reference timeline. -/
theorem mergeAll_perm_spec_witness :
    (mergeAll [0] ([⟨1, [(0, 7)]⟩, ⟨2, [(0, 9)]⟩] : List TelemetryStream) 50).map Prod.fst
      = (mergeAll [0] ([⟨2, [(0, 9)]⟩, ⟨1, [(0, 7)]⟩] : List TelemetryStream) 50).map Prod.fst ∧
    ∀ i, i < [(0 : Int)].length →
      ((mergeAll [0] ([⟨1, [(0, 7)]⟩, ⟨2, [(0, 9)]⟩] : List TelemetryStream) 50).getD i (0, [])).2.Perm
        ((mergeAll [0] ([⟨2, [(0, 9)]⟩, ⟨1, [(0, 7)]⟩] : List TelemetryStream) 50).getD i (0, [])).2 :=
  mergeAll_perm_spec [0] ([⟨1, [(0, 7)]⟩, ⟨2, [(0, 9)]⟩] : List TelemetryStream) ([⟨2, [(0, 9)]⟩, ⟨1, [(0, 7)]⟩] : List TelemetryStream) 50
    (List.Perm.swap (⟨2, [(0, 9)]⟩ : TelemetryStream) ⟨1, [(0, 7)]⟩ [])

/-!
Frame sampler model for `create_flight_video`.  The clipped table's time
extent is `[a, b]` (rationals model the float computation exactly; the
code performs the same arithmetic on nanosecond values).  The code
computes `total_possible_frames = int(total_duration * fps)` and
`np.linspace(start, end, total_possible_frames)`, i.e. the i-th instant
is `a + i * (b - a) / (K - 1)`.
-/

/-- `int(total_duration * fps)`: the number of planned frames. -/
def frameCount (a b : ℚ) (fps : ℕ) : ℕ := ⌊(b - a) * fps⌋₊

/-- `np.linspace(start_time, end_time, total_possible_frames)`. -/
def planInstants (a b : ℚ) (fps : ℕ) : List ℚ :=
  (List.range (frameCount a b fps)).map
    (fun i : ℕ => a + (i : ℚ) * (b - a) / ((frameCount a b fps - 1 : ℕ) : ℚ))

lemma planInstants_getD (a b : ℚ) (fps : ℕ) {i : ℕ}
    (hi : i < frameCount a b fps) :
    (planInstants a b fps).getD i 0
      = a + (i : ℚ) * (b - a) / ((frameCount a b fps - 1 : ℕ) : ℚ) := by
  unfold planInstants
  rw [List.getD_eq_getElem?_getD, List.getElem?_map, List.getElem?_range hi]
  rfl

/-- C3: for a clipped range `[a, b]` of positive duration with at least
two planned frames, the planner produces exactly
`K = floor(duration * fps)` instants; they start at `a`, end at `b`, are
strictly increasing, and consecutive instants differ by exactly
`(b - a) / (K - 1)`. -/
theorem planInstants_spec (a b : ℚ) (fps : ℕ) (hab : a < b)
    (hK : 2 ≤ frameCount a b fps) :
    (planInstants a b fps).length = frameCount a b fps ∧
    (planInstants a b fps).getD 0 0 = a ∧
    (planInstants a b fps).getD (frameCount a b fps - 1) 0 = b ∧
    List.Chain' (· < ·) (planInstants a b fps) ∧
    (∀ i, i + 1 < frameCount a b fps →
      (planInstants a b fps).getD (i + 1) 0 - (planInstants a b fps).getD i 0
        = (b - a) / ((frameCount a b fps : ℚ) - 1)) := by
  have h1K : 1 ≤ frameCount a b fps := by omega
  have hcast : ((frameCount a b fps - 1 : ℕ) : ℚ) = (frameCount a b fps : ℚ) - 1 :=
    Nat.cast_sub h1K

  have hKq : (2 : ℚ) ≤ (frameCount a b fps : ℚ) := by exact_mod_cast hK
  have hden : (0 : ℚ) < (frameCount a b fps : ℚ) - 1 := by linarith
  have hlen : (planInstants a b fps).length = frameCount a b fps := by
    unfold planInstants
    rw [List.length_map, List.length_range]
  have hgap : ∀ i, i + 1 < frameCount a b fps →
      (planInstants a b fps).getD (i + 1) 0 - (planInstants a b fps).getD i 0
        = (b - a) / ((frameCount a b fps : ℚ) - 1) := by
    intro i hi
    rw [planInstants_getD a b fps hi, planInstants_getD a b fps (by omega : i < frameCount a b fps)]
    rw [hcast]
    push_cast
    ring
  refine ⟨hlen, ?_, ?_, ?_, hgap⟩
  · rw [planInstants_getD a b fps (by omega : 0 < frameCount a b fps)]
    simp
  · rw [planInstants_getD a b fps (by omega : frameCount a b fps - 1 < frameCount a b fps)]
    rw [hcast, mul_div_cancel_left₀ (b - a) (ne_of_gt hden)]
    ring
  · rw [List.chain'_iff_get]
    intro i hi
    rw [hlen] at hi
    have hi1 : i + 1 < frameCount a b fps := by omega
    have e1 : (planInstants a b fps).get ⟨i, by omega⟩ = (planInstants a b fps).getD i 0 := by
      rw [List.get_eq_getElem, List.getD_eq_getElem?_getD,
        List.getElem?_eq_getElem (by omega : i < (planInstants a b fps).length)]
      rfl
    have e2 : (planInstants a b fps).get ⟨i + 1, by omega⟩
        = (planInstants a b fps).getD (i + 1) 0 := by
      rw [List.get_eq_getElem, List.getD_eq_getElem?_getD,
        List.getElem?_eq_getElem (by omega : i + 1 < (planInstants a b fps).length)]
      rfl
    have hpos : (0 : ℚ) < (b - a) / ((frameCount a b fps : ℚ) - 1) :=
      div_pos (by linarith) hden
    have := hgap i hi1
    rw [e1, e2]
    linarith

/-- Witness for C3: with `a = 0`, `b = 10`, `fps = 10`, the plan starts
at 0 and has `frameCount` (that is, 100) instants. -/
theorem planInstants_spec_witness :
    (planInstants 0 10 10).getD 0 0 = 0 ∧
    (planInstants 0 10 10).length = frameCount 0 10 10 :=
  ⟨(planInstants_spec 0 10 10 (by norm_num)
      (by unfold frameCount; exact Nat.le_floor (by norm_num))).2.1,
   (planInstants_spec 0 10 10 (by norm_num)
      (by unfold frameCount; exact Nat.le_floor (by norm_num))).1⟩

/-!
Frame-limit model for `create_flight_video`:
`frame_indices_to_process = list(range(total_possible_frames))`, then the
`start_frame` slice (with the explicit out-of-range check) and the
`max_frames` slice.  Workers key each rendered image by the original
pre-slicing index (`frame_{i:06d}.png` in `generate_single_frame`).
-/

/-- The `start_frame`/`max_frames` index slicing of
`create_flight_video`. -/
def selectFrameIndices (total startFrame : Nat) (maxFrames : Option Nat) : List Nat :=
  let base := List.range total
  let afterStart :=
    if 0 < startFrame then
      (if total ≤ startFrame then [] else base.drop startFrame)
    else base
  match maxFrames with
  | some n => afterStart.take n
  | none => afterStart

/-- Each task pairs the original (pre-slicing) frame index with its
instant; images are keyed by that original index. -/
def frameTasks (total startFrame : Nat) (maxFrames : Option Nat)
    (instants : List ℚ) : List (Nat × ℚ) :=
  (selectFrameIndices total startFrame maxFrames).map
    (fun i => (i, instants.getD i 0))

lemma range'_drop (m : Nat) : ∀ (s L : Nat),
    (List.range' s L).drop m = List.range' (s + m) (L - m) := by
  induction m with
  | zero => intro s L; simp
  | succ m ih =>
    intro s L
    cases L with
    | zero => simp
    | succ L' =>
      rw [List.range'_succ, List.drop_succ_cons, ih (s + 1) L',
        Nat.succ_sub_succ, Nat.add_assoc, Nat.add_comm 1 m]

lemma range'_take : ∀ (n s L : Nat),
    (List.range' s L).take n = List.range' s (min n L) := by
  intro n
  induction n with
  | zero => intro s L; simp
  | succ n ih =>
    intro s L
    cases L with
    | zero => simp
    | succ L' =>
      rw [List.range'_succ, List.take_succ_cons, ih (s + 1) L',
        Nat.succ_min_succ, List.range'_succ]

/-- C5: applying `start_frame = m` and then `max_frames = n` to a plan of
`K` instants selects exactly the original indices `m, m+1, …` — the
arithmetic progression `range' m (min n (K - m))`, i.e. indices
`[m, m+n)`, fewer only when fewer than `n` remain after `m` — and every
task is keyed by its original pre-slicing index. -/
theorem selectFrameIndices_spec (K m n : Nat) (instants : List ℚ) :
    selectFrameIndices K m (some n) = List.range' m (min n (K - m)) ∧
    (frameTasks K m (some n) instants).map Prod.fst
      = List.range' m (min n (K - m)) := by
  have hsel : selectFrameIndices K m (some n) = List.range' m (min n (K - m)) := by
    by_cases hm : 0 < m
    · by_cases hK : K ≤ m
      · simp [selectFrameIndices, hm, hK, Nat.sub_eq_zero_of_le hK]
      · simp only [selectFrameIndices, if_pos hm, if_neg hK]
        rw [List.range_eq_range', range'_drop m 0 K, Nat.zero_add, range'_take]
    · have hm0 : m = 0 := by omega
      subst hm0
      show (List.range K).take n = List.range' 0 (min n (K - 0))
      rw [List.take_range, List.range_eq_range', Nat.sub_zero]
  refine ⟨hsel, ?_⟩
  rw [frameTasks, List.map_map, hsel]
  exact List.map_id _

/-!
Causal-window model for `generate_single_frame`: the worker selects
`df_clipped[(df_clipped.index >= window_start) & (df_clipped.index <= current_time)]`
and, when that selection is empty, falls back to the single earliest
record of the clipped table provided its timestamp does not exceed the
frame instant (otherwise the frame is skipped, returning no window).
-/

/-- The window selection of `generate_single_frame`: records with
timestamp in the closed interval `[t - w, t]`. -/
def windowRecords (records : List (Int × Int)) (t w : Int) : List (Int × Int) :=
  records.filter (fun p => decide (t - w ≤ p.1) && decide (p.1 ≤ t))

/-- The spec's half-open causal window `(t - w, t]`, for comparison with
the code's `windowRecords`. -/
def halfOpenWindowSpec (records : List (Int × Int)) (t w : Int) : List (Int × Int) :=
  records.filter (fun p => decide (t - w < p.1) && decide (p.1 ≤ t))

/-- `generate_single_frame`'s window, with the empty-window fallback to
the earliest clipped record (`df_clipped.iloc[[0]]`); `none` models the
skipped frame. -/
def generateFrameWindow (records : List (Int × Int)) (t w : Int) :
    Option (List (Int × Int)) :=
  let dw := windowRecords records t w
  if dw.isEmpty then
    match records.head? with
    | some p => if p.1 ≤ t then some [p] else none
    | none => none
  else some dw

/-- C2 counterexample: the code's window is the closed interval
`[t - w, t]`: with records at timestamps 0 and 100, instant `t = 100`
and window `w = 100`, the code keeps the record at timestamp
`t - w = 0`, while the claimed half-open window `(t - w, t]` excludes
it. -/
theorem generateFrameWindow_boundary_counterexample :
    generateFrameWindow [(0, 1), (100, 2)] 100 100 = some [(0, 1), (100, 2)] ∧
    halfOpenWindowSpec [(0, 1), (100, 2)] 100 100 = [(100, 2)] := by
  decide

/-- C2 (amended): the causal window handed to the renderer is exactly
the records with timestamp in the closed interval `[t - w, t]`
(including a record at exactly `t - w`); when that window is empty and
the earliest record's timestamp is at most `t` (always true for
planner-generated instants), the single earliest record is used
instead. -/
theorem generateFrameWindow_spec (records : List (Int × Int)) (t w : Int) :
    (∀ p, p ∈ windowRecords records t w ↔
      p ∈ records ∧ t - w ≤ p.1 ∧ p.1 ≤ t) ∧
    (windowRecords records t w ≠ [] →
      generateFrameWindow records t w = some (windowRecords records t w)) ∧
    (windowRecords records t w = [] → ∀ p, records.head? = some p → p.1 ≤ t →
      generateFrameWindow records t w = some [p]) := by
  refine ⟨?_, ?_, ?_⟩
  · intro p
    simp [windowRecords, List.mem_filter, and_assoc]
  · intro hne
    rw [generateFrameWindow]
    simp only [List.isEmpty_iff]
    rw [if_neg hne]
  · intro hemp p hp hpt
    rw [generateFrameWindow]
    simp only [List.isEmpty_iff]
    rw [if_pos hemp, hp]
    exact if_pos hpt

/-- Witness for C2 (amended) at concrete inputs: an empty window falls
back to the earliest record, and a boundary record is a member of the
closed window. -/
theorem generateFrameWindow_spec_witness :
    generateFrameWindow [((5 : Int), (1 : Int))] 10 3 = some [(5, 1)] ∧
    ((7 : Int), (9 : Int)) ∈ windowRecords [((7 : Int), (9 : Int))] 10 3 :=
  ⟨(generateFrameWindow_spec [((5 : Int), (1 : Int))] 10 3).2.2 (by decide)
      (5, 1) rfl (by decide),
   ((generateFrameWindow_spec [((7 : Int), (9 : Int))] 10 3).1 (7, 9)).mpr
      (by decide)⟩

/-!
Timestamp parsing model for `load_and_prepare_csv`.  A cell is
characterized by how it would resolve under each of the three parsers:
`pd.to_datetime(...)` (native, column-wide, raising on the first bad
row), `pd.to_datetime(..., format='ISO8601', errors='coerce')` and
`pd.to_datetime(..., unit='us', errors='coerce')` (both per-row,
coercing failures to NaT).  The numeric attempt runs only when the ISO
attempt itself raises; that possibility is modelled by the `isoRaises`
flag.  `df.dropna(subset=['timestamp'])` then drops unresolved rows.
-/

/-- One timestamp cell together with the row payload it belongs to. -/
structure TsCell (α : Type) where
  native : Option Int
  iso : Option Int
  numeric : Option Int
  payload : α
deriving DecidableEq

/-- The column-level fallback chain of `load_and_prepare_csv`: native
datetime first (used only if every row parses), then strict ISO-8601
with coercion, then numeric microseconds-since-epoch with coercion. -/
def parseTimestampColumn {α : Type} (isoRaises : Bool) (cells : List (TsCell α)) :
    List (Option Int × α) :=
  if cells.all (fun c => c.native.isSome) then
    cells.map (fun c => (c.native, c.payload))
  else if isoRaises then
    cells.map (fun c => (c.numeric, c.payload))
  else
    cells.map (fun c => (c.iso, c.payload))

/-- `df.dropna(subset=['timestamp'])`: keep only rows whose timestamp
resolved. -/
def dropUnresolved {α : Type} (l : List (Option Int × α)) : List (Int × α) :=
  l.filterMap (fun p => p.1.map (fun t => (t, p.2)))

/-- Timestamp preparation of `load_and_prepare_csv` (before sorting):
parse the column through the fallback chain, then drop unresolved
rows. -/
def prepareTimestampColumn {α : Type} (isoRaises : Bool)
    (cells : List (TsCell α)) : List (Int × α) :=
  dropUnresolved (parseTimestampColumn isoRaises cells)

/-- C6: timestamp parsing is attempted native-first (when every row
parses natively, the native values are used for the whole column), the
fallbacks are per-row coercions, and every surviving row resolved under
one of the three schemes — so a row that resolves under none of them is
always dropped, never raising.  (`prepareTimestampColumn` is a total
function: no input raises.) -/
theorem prepareTimestampColumn_spec {α : Type} (isoRaises : Bool)
    (cells : List (TsCell α)) :
    (∀ t x, (t, x) ∈ prepareTimestampColumn isoRaises cells →
      ∃ c ∈ cells, c.payload = x ∧
        (c.native = some t ∨ c.iso = some t ∨ c.numeric = some t)) ∧
    ((cells.all fun c => c.native.isSome) = true →
      prepareTimestampColumn isoRaises cells
        = cells.filterMap (fun c => c.native.map (fun t => (t, c.payload)))) := by
  constructor
  · intro t x hmem
    unfold prepareTimestampColumn parseTimestampColumn at hmem
    split_ifs at hmem with h1 h2 <;>
    · simp only [dropUnresolved, List.mem_filterMap, List.mem_map] at hmem
      obtain ⟨p, ⟨c, hc, hcp⟩, hps⟩ := hmem
      subst hcp
      simp only [Option.map_eq_some'] at hps
      obtain ⟨u, hu, he⟩ := hps
      refine ⟨c, hc, ?_, ?_⟩
      · exact congrArg Prod.snd he
      · have ht : u = t := congrArg Prod.fst he
        subst ht
        simp [hu]
  · intro hall
    unfold prepareTimestampColumn parseTimestampColumn
    rw [if_pos hall, dropUnresolved, List.filterMap_map]
    rfl

/-- Witness for C6: a concrete cell resolving only under the numeric
parser still yields a surviving row that resolved under one of the three
schemes. -/
theorem prepareTimestampColumn_spec_witness :
    ∃ c ∈ [TsCell.mk none none (some 5) (0 : Nat)], c.payload = 0 ∧
      (c.native = some 5 ∨ c.iso = some 5 ∨ c.numeric = some 5) :=
  (prepareTimestampColumn_spec true [TsCell.mk none none (some 5) (0 : Nat)]).1
    5 0 (by decide)

/-!
Minimum-sample gate for `load_and_prepare_csv` / `load_and_merge_data`:
`MIN_ROWS_THRESHOLD = 2`; a table with fewer rows after timestamp
preparation is skipped (`return None`), which is fatal for the required
ATT/IMU streams and a non-fatal exclusion for an optional stream.
-/

/-- `MIN_ROWS_THRESHOLD = 2`. -/
def MIN_ROWS_THRESHOLD : Nat := 2

/-- The minimum-sample gate of `load_and_prepare_csv`:
`if len(df) < MIN_ROWS_THRESHOLD: return None`. -/
def gateMinRows (rows : List (Int × Int)) : Option (List (Int × Int)) :=
  if rows.length < MIN_ROWS_THRESHOLD then none else some rows

/-- The load-and-merge control flow of `load_and_merge_data` restricted
to the minimum-sample gate: both required streams (ATT, IMU) must pass
the gate or the whole load fails (`return None, []`); an optional stream
failing the gate is merely not added to the loaded set. -/
def loadMergeGate (attRows imuRows : List (Int × Int))
    (optionals : List TelemetryStream) (tol : Int) :
    Option (List (Int × List (Nat × Option Int)) × List TelemetryStream) :=
  match gateMinRows attRows, gateMinRows imuRows with
  | some att, some imu =>
    let kept := optionals.filter (fun s => !decide (s.rows.length < MIN_ROWS_THRESHOLD))
    some (mergeAll (att.map Prod.fst) (⟨0, imu⟩ :: kept) tol, kept)
  | _, _ => none

/-- C10: the minimum-sample gate's threshold is exactly 2 — a prepared
table passes iff it retains at least 2 rows; a required stream (ATT or
IMU) below the threshold fails the whole load, while an optional stream
below it is excluded non-fatally (the load still succeeds and the kept
set is exactly the optional streams with at least 2 rows). -/
theorem minRowsGate_spec (attRows imuRows : List (Int × Int))
    (optionals : List TelemetryStream) (tol : Int) :
    (∀ rows : List (Int × Int), (gateMinRows rows).isSome ↔ 2 ≤ rows.length) ∧
    (attRows.length < 2 ∨ imuRows.length < 2 →
      loadMergeGate attRows imuRows optionals tol = none) ∧
    (2 ≤ attRows.length → 2 ≤ imuRows.length →
      ∃ merged kept, loadMergeGate attRows imuRows optionals tol = some (merged, kept) ∧
        (∀ s, s ∈ kept ↔ s ∈ optionals ∧ 2 ≤ s.rows.length) ∧
        (∀ s ∈ optionals, s.rows.length < 2 → s ∉ kept)) := by
  refine ⟨?_, ?_, ?_⟩
  · intro rows
    unfold gateMinRows MIN_ROWS_THRESHOLD
    split_ifs with h <;> simp <;> omega
  · intro hlt
    unfold loadMergeGate gateMinRows MIN_ROWS_THRESHOLD
    rcases hlt with h | h
    · rw [if_pos (by omega : attRows.length < 2)]
    · rw [if_pos (by omega : imuRows.length < 2)]
      cases hattg : (if attRows.length < 2 then (none : Option (List (Int × Int))) else some attRows) <;> rfl
  · intro hatt himu
    unfold loadMergeGate gateMinRows MIN_ROWS_THRESHOLD
    rw [if_neg (by omega : ¬attRows.length < 2), if_neg (by omega : ¬imuRows.length < 2)]
    refine ⟨_, _, rfl, ?_, ?_⟩
    · intro s
      simp [MIN_ROWS_THRESHOLD, List.mem_filter, Nat.not_lt]
    · intro s hs hlen hmem
      rw [List.mem_filter] at hmem
      simp [MIN_ROWS_THRESHOLD] at hmem
      omega

/-- Witness for C10: a required stream with a single row fails the load;
with both required streams passing, an optional single-row stream is
excluded while the load succeeds. -/
theorem minRowsGate_spec_witness :
    loadMergeGate [(0, 0)] [(0, 0), (1, 1)] [] 50 = none ∧
    (∃ merged kept,
      loadMergeGate [(0, 0), (1, 1)] [(0, 0), (1, 1)]
        [(⟨5, [(0, 0)]⟩ : TelemetryStream)] 50 = some (merged, kept) ∧
      (∀ s, s ∈ kept ↔ s ∈ [(⟨5, [(0, 0)]⟩ : TelemetryStream)] ∧ 2 ≤ s.rows.length) ∧
      (∀ s ∈ [(⟨5, [(0, 0)]⟩ : TelemetryStream)], s.rows.length < 2 → s ∉ kept)) :=
  ⟨(minRowsGate_spec [(0, 0)] [(0, 0), (1, 1)] [] 50).2.1 (Or.inl (by decide)),
   (minRowsGate_spec [(0, 0), (1, 1)] [(0, 0), (1, 1)]
      [(⟨5, [(0, 0)]⟩ : TelemetryStream)] 50).2.2 (by decide) (by decide)⟩

/-!
Frame validator and sequencer model for `create_flight_video`.  Worker
completions arrive in arbitrary order as `(frame index, optional file)`
pairs (`None` models a failed or skipped render); `frame_results` is the
dictionary built from them.  The sequencer then walks `original_indices`
in increasing order, keeping a file only if it exists and is non-empty,
and compiles the kept frames — erroring out when none are valid.
-/

/-- A produced frame file: whether it exists on disk, its byte size, and
an abstract identity for the image contents. -/
structure FrameFile where
  present : Bool
  size : Nat
  ref : Nat
deriving DecidableEq

/-- Dictionary lookup in the completion list (`frame_results.get(i)`);
task indices are unique, so the first hit is the entry. -/
def lookupResult (i : Nat) : List (Nat × Option FrameFile) → Option (Option FrameFile)
  | [] => none
  | (k, v) :: rest => if i = k then some v else lookupResult i rest

/-- The validation predicate:
`os.path.exists(filename) and os.path.getsize(filename) > 0`. -/
def isValidFrame (f : FrameFile) : Bool := f.present && decide (0 < f.size)

/-- The per-index validation step of the sequencer: look the index up in
the results dictionary and keep the file only if the render succeeded
and the file is present and non-empty. -/
def keepFrame (deliveries : List (Nat × Option FrameFile)) (i : Nat) :
    Option (Nat × FrameFile) :=
  match lookupResult i deliveries with
  | some (some f) => if isValidFrame f then some (i, f) else none
  | _ => none

/-- The sequencer: walk the intended indices in order, skip failed
renders (`none` results), missing entries, missing files and zero-byte
files, and keep the valid frames keyed by frame index. -/
def collectFrames (indices : List Nat)
    (deliveries : List (Nat × Option FrameFile)) : List (Nat × FrameFile) :=
  indices.filterMap (keepFrame deliveries)

/-- The compile step: zero valid frames is fatal
(`Error: No valid frames were generated or found.`), otherwise the valid
frames are written in order. -/
def assembleFrames (indices : List Nat)
    (deliveries : List (Nat × Option FrameFile)) :
    Except Unit (List (Nat × FrameFile)) :=
  let fs := collectFrames indices deliveries
  if fs.isEmpty then .error () else .ok fs

lemma lookupResult_perm : ∀ {l1 l2 : List (Nat × Option FrameFile)},
    l1.Perm l2 → (l1.map Prod.fst).Nodup → ∀ i,
    lookupResult i l1 = lookupResult i l2 := by
  intro l1 l2 h
  induction h with
  | nil => intro _ _; rfl
  | cons x h ih =>
    intro nd i
    obtain ⟨k, v⟩ := x
    simp only [List.map_cons, List.nodup_cons] at nd
    simp only [lookupResult]
    by_cases hik : i = k
    · rw [if_pos hik, if_pos hik]
    · rw [if_neg hik, if_neg hik]
      exact ih nd.2 i
  | swap x y l =>
    intro nd i
    obtain ⟨k1, v1⟩ := x
    obtain ⟨k2, v2⟩ := y
    simp only [List.map_cons, List.nodup_cons, List.mem_cons] at nd
    have hk : k2 ≠ k1 := fun he => nd.1 (Or.inl he)
    simp only [lookupResult]
    by_cases h1 : i = k1 <;> by_cases h2 : i = k2
    · exact absurd (h2.symm.trans h1) hk
    · simp [h1, Ne.symm hk]
    · simp [h2, hk]
    · simp [h1, h2]
  | trans h1 h2 ih1 ih2 =>
    intro nd i
    have nd2 := (h1.map Prod.fst).nodup nd
    exact (ih1 nd i).trans (ih2 nd2 i)

lemma keepFrame_some {d : List (Nat × Option FrameFile)} {i j : Nat}
    {f : FrameFile} :
    keepFrame d i = some (j, f) ↔
      j = i ∧ lookupResult i d = some (some f) ∧ isValidFrame f = true := by
  cases hl : lookupResult i d with
  | none => simp [keepFrame, hl]
  | some ov =>
    cases ov with
    | none => simp [keepFrame, hl]
    | some g =>
      by_cases hv : isValidFrame g
      · simp only [keepFrame, hl, if_pos hv]
        constructor
        · intro h
          have hji : i = j := congrArg Prod.fst (Option.some.inj h)
          have hgf : g = f := congrArg Prod.snd (Option.some.inj h)
          subst hji; subst hgf
          exact ⟨rfl, rfl, hv⟩
        · rintro ⟨rfl, hg, _⟩
          have : g = f := Option.some.inj (Option.some.inj hg)
          rw [this]
      · simp only [keepFrame, hl, if_neg hv]
        constructor
        · intro h; exact absurd h (by simp)
        · rintro ⟨rfl, hg, hvf⟩
          have : g = f := Option.some.inj (Option.some.inj hg)
          subst this
          exact absurd hvf hv

lemma collectFrames_fst_sublist (indices : List Nat)
    (deliveries : List (Nat × Option FrameFile)) :
    ((collectFrames indices deliveries).map Prod.fst).Sublist indices := by
  induction indices with
  | nil => simp [collectFrames]
  | cons i rest ih =>
    rw [collectFrames] at ih
    rw [collectFrames, List.filterMap_cons]
    cases hk : keepFrame deliveries i with
    | none => exact List.Sublist.cons i ih
    | some p =>
      obtain ⟨j, f⟩ := p
      have hji : j = i := (keepFrame_some.mp hk).1
      subst hji
      rw [List.map_cons]
      exact List.Sublist.cons₂ j ih

/-- C8: the sequencer's output does not depend on completion order (any
permutation of the worker results with unique indices collects
identically); the kept frames are in strictly increasing frame-index
order; a frame is kept exactly when its render succeeded, the file is
present and it is non-empty; and zero valid frames is a fatal error
while otherwise the ordered valid list is compiled. -/
theorem collectFrames_spec (indices : List Nat)
    (d1 d2 : List (Nat × Option FrameFile))
    (hperm : d1.Perm d2) (hnd : (d1.map Prod.fst).Nodup)
    (hinc : indices.Pairwise (· < ·)) :
    collectFrames indices d1 = collectFrames indices d2 ∧
    ((collectFrames indices d1).map Prod.fst).Pairwise (· < ·) ∧
    (∀ i f, (i, f) ∈ collectFrames indices d1 ↔
      i ∈ indices ∧ lookupResult i d1 = some (some f) ∧
        f.present = true ∧ 0 < f.size) ∧
    (collectFrames indices d1 = [] → assembleFrames indices d1 = .error ()) ∧
    (collectFrames indices d1 ≠ [] →
      assembleFrames indices d1 = .ok (collectFrames indices d1)) := by
  refine ⟨?_, ?_, ?_, ?_, ?_⟩
  · unfold collectFrames
    apply List.filterMap_congr
    intro i _
    unfold keepFrame
    rw [lookupResult_perm hperm hnd i]
  · exact hinc.sublist (collectFrames_fst_sublist indices d1)
  · intro i f
    rw [collectFrames, List.mem_filterMap]
    constructor
    · rintro ⟨j, hj, hfn⟩
      obtain ⟨rfl, hl, hv⟩ := keepFrame_some.mp hfn
      unfold isValidFrame at hv
      simp only [Bool.and_eq_true, decide_eq_true_eq] at hv
      exact ⟨hj, hl, hv.1, hv.2⟩
    · rintro ⟨hi, hl, hp, hs⟩
      refine ⟨i, hi, keepFrame_some.mpr ⟨rfl, hl, ?_⟩⟩
      unfold isValidFrame
      simp [hp, hs]
  · intro hnil
    unfold assembleFrames
    rw [if_pos (by simpa [List.isEmpty_iff] using hnil)]
  · intro hnil
    unfold assembleFrames
    rw [if_neg (by simpa [List.isEmpty_iff] using hnil)]

/-- Witness for C8: two deliveries in completion order (index 1 first),
collected over intended indices `[0, 1]`, equal the collection from the
swapped completion order, and frame 1 is kept exactly because its file
is present and non-empty. -/
theorem collectFrames_spec_witness :
    collectFrames [0, 1] [(1, some ⟨true, 3, 9⟩), (0, none)]
      = collectFrames [0, 1] [(0, none), (1, some ⟨true, 3, 9⟩)] ∧
    ((1, (⟨true, 3, 9⟩ : FrameFile)) ∈
        collectFrames [0, 1] [(1, some ⟨true, 3, 9⟩), (0, none)] ↔
      1 ∈ [0, 1] ∧
        lookupResult 1 [(1, some ⟨true, 3, 9⟩), (0, none)] = some (some ⟨true, 3, 9⟩) ∧
        (⟨true, 3, 9⟩ : FrameFile).present = true ∧ 0 < (⟨true, 3, 9⟩ : FrameFile).size) :=
  ⟨(collectFrames_spec [0, 1] [(1, some ⟨true, 3, 9⟩), (0, none)]
      [(0, none), (1, some ⟨true, 3, 9⟩)] (by decide) (by decide) (by decide)).1,
   (collectFrames_spec [0, 1] [(1, some ⟨true, 3, 9⟩), (0, none)]
      [(0, none), (1, some ⟨true, 3, 9⟩)] (by decide) (by decide) (by decide)).2.2.1
      1 ⟨true, 3, 9⟩⟩

/-!
Haversine model for `flight_data_loader.haversine`.  Doubles are
modelled by `XR`: a finite real, `+inf`, `-inf`, or NaN (pandas' null).
Each numpy operation used by the code is given its IEEE semantics on
this carrier: `np.sin`/`np.cos`/`np.arcsin` of a non-finite value is
NaN, `np.sqrt` of a negative value is NaN, arithmetic propagates NaN,
and infinities follow the usual rules.  The function first guards
`np.isnan` on its four inputs and otherwise evaluates the formula; it is
a total function — no input raises.
-/

/-- An IEEE-754 double: a finite real, an infinity, or NaN. -/
inductive XR where
  | num : ℝ → XR
  | pinf : XR
  | ninf : XR
  | nan : XR

/-- `np.isnan`. -/
def xIsNan : XR → Bool
  | .nan => true
  | _ => false

/-- Finiteness of a double. -/
def xIsFin : XR → Bool
  | .num _ => true
  | _ => false

noncomputable section

/-- `np.radians` on a finite value: multiply by π/180. -/
def degToRad (x : ℝ) : ℝ := x * (Real.pi / 180)

/-- `np.radians`. -/
def xradians : XR → XR
  | .num x => .num (degToRad x)
  | .pinf => .pinf
  | .ninf => .ninf
  | .nan => .nan

/-- IEEE subtraction. -/
def xsub : XR → XR → XR
  | .num a, .num b => .num (a - b)
  | .nan, _ => .nan
  | _, .nan => .nan
  | .pinf, .pinf => .nan
  | .ninf, .ninf => .nan
  | .pinf, _ => .pinf
  | _, .pinf => .ninf
  | .ninf, _ => .ninf
  | _, .ninf => .pinf

/-- IEEE addition. -/
def xadd : XR → XR → XR
  | .num a, .num b => .num (a + b)
  | .nan, _ => .nan
  | _, .nan => .nan
  | .pinf, .ninf => .nan
  | .ninf, .pinf => .nan
  | .pinf, _ => .pinf
  | _, .pinf => .pinf
  | .ninf, _ => .ninf
  | _, .ninf => .ninf

/-- IEEE multiplication. -/
def xmul : XR → XR → XR
  | .num a, .num b => .num (a * b)
  | .nan, _ => .nan
  | _, .nan => .nan
  | .pinf, .pinf => .pinf
  | .pinf, .ninf => .ninf
  | .ninf, .pinf => .ninf
  | .ninf, .ninf => .pinf
  | .pinf, .num b => if 0 < b then .pinf else if b < 0 then .ninf else .nan
  | .ninf, .num b => if 0 < b then .ninf else if b < 0 then .pinf else .nan
  | .num a, .pinf => if 0 < a then .pinf else if a < 0 then .ninf else .nan
  | .num a, .ninf => if 0 < a then .ninf else if a < 0 then .pinf else .nan

/-- Division by the constant 2. -/
def xhalf : XR → XR
  | .num a => .num (a / 2)
  | .pinf => .pinf
  | .ninf => .ninf
  | .nan => .nan

/-- `np.sin`: NaN on any non-finite input. -/
def xsin : XR → XR
  | .num a => .num (Real.sin a)
  | _ => .nan

/-- `np.cos`: NaN on any non-finite input. -/
def xcos : XR → XR
  | .num a => .num (Real.cos a)
  | _ => .nan

/-- `v ** 2`, as the product `v * v`. -/
def xsq (v : XR) : XR := xmul v v

/-- `np.sqrt`: NaN on a negative or NaN input, `+inf` on `+inf`. -/
def xsqrt : XR → XR
  | .num a => if a < 0 then .nan else .num (Real.sqrt a)
  | .pinf => .pinf
  | _ => .nan

/-- `np.arcsin`: NaN outside `[-1, 1]` and on non-finite input. -/
def xarcsin : XR → XR
  | .num a => if a < -1 ∨ 1 < a then .nan else .num (Real.arcsin a)
  | _ => .nan

/-- `flight_data_loader.haversine`: guard `np.isnan` on the four inputs,
convert degrees to radians, apply the haversine formula, and scale by
the mean earth radius 6 371 000 m. -/
def haversine (lat1 lon1 lat2 lon2 : XR) : XR :=
  if xIsNan lat1 || xIsNan lon1 || xIsNan lat2 || xIsNan lon2 then .nan
  else
    xmul
      (xmul (XR.num 2)
        (xarcsin (xsqrt
          (xadd
            (xsq (xsin (xhalf (xsub (xradians lat2) (xradians lat1)))))
            (xmul (xmul (xcos (xradians lat1)) (xcos (xradians lat2)))
              (xsq (xsin (xhalf (xsub (xradians lon2) (xradians lon1))))))))))
      (XR.num 6371000)

/-- The finite-input haversine intermediate
`a = sin²(Δlat/2) + cos(lat1)·cos(lat2)·sin²(Δlon/2)`. -/
def havA (x y x' y' : ℝ) : ℝ :=
  Real.sin ((degToRad x' - degToRad x) / 2) * Real.sin ((degToRad x' - degToRad x) / 2)
    + Real.cos (degToRad x) * Real.cos (degToRad x')
      * (Real.sin ((degToRad y' - degToRad y) / 2)
          * Real.sin ((degToRad y' - degToRad y) / 2))

end

lemma xadd_nan_left (v : XR) : xadd .nan v = .nan := by cases v <;> rfl

lemma xadd_nan_right (v : XR) : xadd v .nan = .nan := by cases v <;> rfl

lemma xmul_nan_left (v : XR) : xmul .nan v = .nan := by cases v <;> rfl

lemma xmul_nan_right (v : XR) : xmul v .nan = .nan := by cases v <;> rfl

lemma xsub_nan_left (v : XR) : xsub .nan v = .nan := by cases v <;> rfl

lemma xsub_nan_right (v : XR) : xsub v .nan = .nan := by cases v <;> rfl

lemma haversine_num (x y x' y' : ℝ) :
    haversine (XR.num x) (XR.num y) (XR.num x') (XR.num y')
      = if havA x y x' y' < 0 then XR.nan
        else if Real.sqrt (havA x y x' y') < -1 ∨ 1 < Real.sqrt (havA x y x' y') then XR.nan
        else XR.num (2 * Real.arcsin (Real.sqrt (havA x y x' y')) * 6371000) := by
  unfold haversine
  rw [if_neg (by simp [xIsNan])]
  show xmul (xmul (XR.num 2) (xarcsin (xsqrt (XR.num (havA x y x' y'))))) (XR.num 6371000)
    = _
  by_cases hA : havA x y x' y' < 0
  · have h1 : xsqrt (XR.num (havA x y x' y')) = XR.nan := by
      show (if havA x y x' y' < 0 then XR.nan else XR.num (Real.sqrt (havA x y x' y')))
        = XR.nan
      exact if_pos hA
    rw [h1, if_pos hA]
    rfl
  · have h1 : xsqrt (XR.num (havA x y x' y')) = XR.num (Real.sqrt (havA x y x' y')) := by
      show (if havA x y x' y' < 0 then XR.nan else XR.num (Real.sqrt (havA x y x' y')))
        = XR.num (Real.sqrt (havA x y x' y'))
      exact if_neg hA
    rw [h1, if_neg hA]
    by_cases hB : Real.sqrt (havA x y x' y') < -1 ∨ 1 < Real.sqrt (havA x y x' y')
    · have h2 : xarcsin (XR.num (Real.sqrt (havA x y x' y'))) = XR.nan := by
        show (if Real.sqrt (havA x y x' y') < -1 ∨ 1 < Real.sqrt (havA x y x' y')
          then XR.nan else XR.num (Real.arcsin (Real.sqrt (havA x y x' y')))) = XR.nan
        exact if_pos hB
      rw [h2, if_pos hB]
      rfl
    · have h2 : xarcsin (XR.num (Real.sqrt (havA x y x' y')))
          = XR.num (Real.arcsin (Real.sqrt (havA x y x' y'))) := by
        show (if Real.sqrt (havA x y x' y') < -1 ∨ 1 < Real.sqrt (havA x y x' y')
          then XR.nan else XR.num (Real.arcsin (Real.sqrt (havA x y x' y'))))
          = XR.num (Real.arcsin (Real.sqrt (havA x y x' y')))
        exact if_neg hB
      rw [h2, if_neg hB]
      rfl

lemma haversine_refl (x y : ℝ) :
    haversine (XR.num x) (XR.num y) (XR.num x) (XR.num y) = XR.num 0 := by
  rw [haversine_num x y x y]
  have hA0 : havA x y x y = 0 := by
    unfold havA
    rw [sub_self, sub_self, zero_div, Real.sin_zero]
    ring
  rw [hA0, if_neg (lt_irrefl 0), Real.sqrt_zero, if_neg (by norm_num), Real.arcsin_zero]
  norm_num

lemma haversine_symm (x y x' y' : ℝ) :
    haversine (XR.num x) (XR.num y) (XR.num x') (XR.num y')
      = haversine (XR.num x') (XR.num y') (XR.num x) (XR.num y) := by
  rw [haversine_num, haversine_num]
  have hA : havA x' y' x y = havA x y x' y' := by
    unfold havA
    rw [show (degToRad x - degToRad x') / 2 = -((degToRad x' - degToRad x) / 2) by ring,
      show (degToRad y - degToRad y') / 2 = -((degToRad y' - degToRad y) / 2) by ring,
      Real.sin_neg, Real.sin_neg]
    ring
  rw [hA]

set_option maxHeartbeats 2000000 in
lemma haversine_nonfinite (a b c d : XR)
    (h : (xIsFin a && xIsFin b && xIsFin c && xIsFin d) = false) :
    haversine a b c d = XR.nan := by
  cases a <;> cases b <;> cases c <;> cases d <;>
    simp_all [haversine, xradians, xsub, xadd, xmul, xhalf, xsin, xcos, xsq,
      xsqrt, xarcsin, xIsNan, xIsFin, xadd_nan_left, xadd_nan_right,
      xmul_nan_left, xmul_nan_right, xsub_nan_left, xsub_nan_right]

/-- C7: haversine of a point with itself is 0; haversine is symmetric in
its two coordinate pairs; and whenever any of the four inputs is
non-finite (NaN or an infinity) the result is NaN — pandas' null — and,
the model being a total function, no input raises. -/
theorem haversine_spec (x y x' y' : ℝ) (a b c d : XR)
    (h : (xIsFin a && xIsFin b && xIsFin c && xIsFin d) = false) :
    haversine (XR.num x) (XR.num y) (XR.num x) (XR.num y) = XR.num 0 ∧
    haversine (XR.num x) (XR.num y) (XR.num x') (XR.num y')
      = haversine (XR.num x') (XR.num y') (XR.num x) (XR.num y) ∧
    haversine a b c d = XR.nan :=
  ⟨haversine_refl x y, haversine_symm x y x' y', haversine_nonfinite a b c d h⟩

/-- Witness for C7 at a concrete non-finite input: an infinite latitude
yields NaN. -/
theorem haversine_spec_witness :
    haversine XR.pinf (XR.num 0) (XR.num 0) (XR.num 0) = XR.nan :=
  (haversine_spec 0 0 0 0 XR.pinf (XR.num 0) (XR.num 0) (XR.num 0) rfl).2.2
